import Mathlib

/-!
Verification development for the README generator MCP server
(`src/build/index.js`).  The filesystem is modelled as a rose tree,
JavaScript strings as `List Char`, and the four tool operations as pure
functions over that model.  Fallible filesystem primitives return
`Except`.
-/

namespace ReadmeGen

/-- JavaScript strings are modelled as lists of characters. -/
abbrev Str := List Char

/-- `leadsWith pat s` is true when `pat` occurs at the very start of `s`. -/
def leadsWith : Str → Str → Bool
  | [], _ => true
  | _ :: _, [] => false
  | p :: ps, c :: cs => p == c && leadsWith ps cs

/-- `strIncludes s pat` models JavaScript `s.includes(pat)`:
case-sensitive substring containment. -/
def strIncludes : Str → Str → Bool
  | s, pat =>
    if leadsWith pat s then true
    else
      match s with
      | [] => false
      | _ :: rest => strIncludes rest pat

/-- A filesystem tree.  A file carries an optional content (`none` means
the file exists but cannot be read); a directory carries a `listable`
flag (`false` means `readdir` on it fails) and its entries in
enumeration order. -/
inductive FsTree : Type where
  | file (name : Str) (content : Option Str) : FsTree
  | dir (name : Str) (listable : Bool) (entries : List FsTree) : FsTree

/-- The name of a filesystem entry, as `readdir` reports it. -/
def fsName : FsTree → Str
  | FsTree.file n _ => n
  | FsTree.dir n _ _ => n

/-- The node type produced by `getDirectoryStructure`: a file node keeps
its name and full path, a directory node keeps its name and its children
in the order they were pushed. -/
inductive Node : Type where
  | file (name : Str) (path : List Str) : Node
  | dir (name : Str) (children : List Node) : Node

/-- The name stored in a scan node. -/
def nodeName : Node → Str
  | Node.file n _ => n
  | Node.dir n _ => n

/-- Paths are modelled as lists of segments; `joinPath` renders the
original path string with `/` separators (used only for the
`parse(dirPath).base || dirPath` fallback). -/
def joinPath (p : List Str) : Str :=
  (List.intersperse ("/".toList) p).flatten

/-- Models `parse(dirPath).base || dirPath`: the last path segment, or
the whole joined path when the last segment is empty or absent. -/
def scanDirName (p : List Str) : Str :=
  match p.getLast? with
  | some b => if b = [] then joinPath p else b
  | none => joinPath p

/-- The default ignore patterns of `getDirectoryStructure`. -/
def defaultIgnorePatterns : List Str :=
  ["node_modules".toList, ".git".toList, "dist".toList,
   "build".toList, ".next".toList, "coverage".toList]

/-- Models `Failed to read directory: ${error}` rethrown by the scanner. -/
def wrapScanErr (e : Str) : Str :=
  ("Failed to read directory: ".toList) ++ e

/-- Whether an entry name matches some ignore pattern
(`ignorePatterns.some((pattern) => entry.name.includes(pattern))`). -/
def isIgnored (ignorePatterns : List Str) (name : Str) : Bool :=
  ignorePatterns.any (fun pat => strIncludes name pat)

mutual

/-- Shallow embedding of `getDirectoryStructure(dirPath, maxDepth,
currentDepth, ignorePatterns)`, called on a path that resolves to the
filesystem tree `t`.  Returns `.ok none` when the depth bound is
reached, `.ok (some node)` on a successful scan and `.error msg` when
some `readdir` fails. -/
def getDirectoryStructure (t : FsTree) (dirPath : List Str)
    (maxDepth currentDepth : Nat) (ignorePatterns : List Str) :
    Except Str (Option Node) :=
  if maxDepth ≤ currentDepth then Except.ok none
  else
    match t with
    | FsTree.file _ _ => Except.error (wrapScanErr ("ENOTDIR: not a directory".toList))
    | FsTree.dir _ false _ => Except.error (wrapScanErr ("EACCES: permission denied".toList))
    | FsTree.dir _ true entries =>
      match scanEntries entries dirPath maxDepth currentDepth ignorePatterns with
      | Except.error e => Except.error (wrapScanErr e)
      | Except.ok children =>
        Except.ok (some (Node.dir (scanDirName dirPath) children))

/-- The entry loop of `getDirectoryStructure`: skips ignored entries,
pushes file nodes, recurses into directories (at `currentDepth + 1`) and
pushes the resulting node when it is non-null; a failing recursive scan
aborts the loop. -/
def scanEntries (es : List FsTree) (dirPath : List Str)
    (maxDepth currentDepth : Nat) (ignorePatterns : List Str) :
    Except Str (List Node) :=
  match es with
  | [] => Except.ok []
  | e :: rest =>
    if isIgnored ignorePatterns (fsName e) then
      scanEntries rest dirPath maxDepth currentDepth ignorePatterns
    else
      match e with
      | FsTree.file n _ =>
        match scanEntries rest dirPath maxDepth currentDepth ignorePatterns with
        | Except.error er => Except.error er
        | Except.ok tail => Except.ok (Node.file n (dirPath ++ [n]) :: tail)
      | FsTree.dir n lb cs =>
        match getDirectoryStructure (FsTree.dir n lb cs) (dirPath ++ [n])
            maxDepth (currentDepth + 1) ignorePatterns with
        | Except.error er => Except.error er
        | Except.ok none =>
          scanEntries rest dirPath maxDepth currentDepth ignorePatterns
        | Except.ok (some nd) =>
          match scanEntries rest dirPath maxDepth currentDepth ignorePatterns with
          | Except.error er => Except.error er
          | Except.ok tail => Except.ok (nd :: tail)

end

/-- `getDirectoryStructure` called on a path that may not resolve
(`none` = nonexistent): the depth check still happens before the failing
`readdir`. -/
def getDirectoryStructureAt (t : Option FsTree) (dirPath : List Str)
    (maxDepth currentDepth : Nat) (ignorePatterns : List Str) :
    Except Str (Option Node) :=
  match t with
  | some tr => getDirectoryStructure tr dirPath maxDepth currentDepth ignorePatterns
  | none =>
    if maxDepth ≤ currentDepth then Except.ok none
    else Except.error (wrapScanErr ("ENOENT: no such file or directory".toList))

/-- The indentation of `formatDirectoryStructure`: `"  ".repeat(depth)`. -/
def indentOf (depth : Nat) : Str :=
  List.replicate (2 * depth) ' '

mutual

/-- Shallow embedding of `formatDirectoryStructure(node, depth)`. -/
def formatDirectoryStructure : Node → Nat → Str
  | Node.dir name children, depth =>
    indentOf depth ++ name ++ ("/\n".toList) ++
      formatChildren children (depth + 1)
  | Node.file name _, depth =>
    indentOf depth ++ name ++ ("\n".toList)

/-- The child loop of `formatDirectoryStructure`. -/
def formatChildren : List Node → Nat → Str
  | [], _ => []
  | c :: rest, depth =>
    formatDirectoryStructure c depth ++ formatChildren rest depth

end

/-- `readdir(path)` without `withFileTypes`: the entry names. -/
def readdirNames : Option FsTree → Except Str (List Str)
  | none => Except.error ("ENOENT: no such file or directory".toList)
  | some (FsTree.file _ _) => Except.error ("ENOTDIR: not a directory".toList)
  | some (FsTree.dir _ false _) => Except.error ("EACCES: permission denied".toList)
  | some (FsTree.dir _ true es) => Except.ok (es.map fsName)

/-- `readFile(path, "utf-8")` on the modelled filesystem. -/
def readFileFs : Option FsTree → Except Str Str
  | none => Except.error ("ENOENT: no such file or directory".toList)
  | some (FsTree.dir _ _ _) => Except.error ("EISDIR: illegal operation on a directory".toList)
  | some (FsTree.file _ none) => Except.error ("EACCES: permission denied".toList)
  | some (FsTree.file _ (some c)) => Except.ok c

/-- Look a named entry up in a (listable) directory. -/
def childNamed : Option FsTree → Str → Option FsTree
  | some (FsTree.dir _ true cs), nm => cs.find? (fun e => fsName e == nm)
  | _, _ => none

/-- Resolve a segment path against the modelled filesystem. -/
def resolve : Option FsTree → List Str → Option FsTree
  | t, [] => t
  | t, n :: rest => resolve (childNamed t n) rest

/-- The parsed shape of a `package.json` manifest.  `author` and
`repository` may be a plain string (`Sum.inl`) or an object
(`Sum.inr`, carrying its serialized form resp. its `url` field);
`dependencies`/`devDependencies` carry their key lists. -/
structure PackageJson where
  name : Option Str
  description : Option Str
  version : Option Str
  author : Option (Sum Str Str)
  license : Option Str
  homepage : Option Str
  repository : Option (Sum Str Str)
  scripts : Option (List (Str × Str))
  dependencies : Option (List Str)
  devDependencies : Option (List Str)

/-- JavaScript `a || b` on an optional string (`undefined`/`null` and
`""` are falsy). -/
def jsOrStr (o : Option Str) (d : Str) : Str :=
  match o with
  | some s => if s = [] then d else s
  | none => d

/-- JavaScript `x || null` on an optional string: an empty string
becomes `null`. -/
def jsTruthy (o : Option Str) : Option Str :=
  match o with
  | some s => if s = [] then none else some s
  | none => none

/-- JavaScript truthiness of a string-or-object value: only the empty
string and absence are falsy (objects are always truthy). -/
def jsTruthySum (o : Option (Sum Str Str)) : Option (Sum Str Str) :=
  match o with
  | some (Sum.inl s) => if s = [] then none else some (Sum.inl s)
  | some (Sum.inr v) => some (Sum.inr v)
  | none => none

/-- The `detectedTechnologies` pushes of `analyzeProject`, in source
order, driven by membership in the root listing. -/
def detectedTechnologiesOf (files : List Str) : List Str :=
  (if files.contains ("package.json".toList) then ["Node.js".toList] else []) ++
  (if files.contains ("tsconfig.json".toList) then ["TypeScript".toList] else []) ++
  (if files.contains ("requirements.txt".toList) then ["Python".toList] else []) ++
  (if files.contains ("setup.py".toList) then ["Python".toList] else []) ++
  (if files.contains ("Cargo.toml".toList) then ["Rust".toList] else []) ++
  (if files.contains ("go.mod".toList) then ["Go".toList] else []) ++
  (if files.contains ("pom.xml".toList) then ["Java".toList] else []) ++
  (if files.contains ("build.gradle".toList) then ["Java/Gradle".toList] else []) ++
  (if files.contains ("Dockerfile".toList) then ["Docker".toList] else [])

/-- The `configFiles` pushes of `analyzeProject`, in source order,
including the `.env.example`/`.env.template` first-match case. -/
def configFilesOf (files : List Str) : List Str :=
  (if files.contains ("package.json".toList) then ["package.json".toList] else []) ++
  (if files.contains ("tsconfig.json".toList) then ["tsconfig.json".toList] else []) ++
  (if files.contains ("requirements.txt".toList) then ["requirements.txt".toList] else []) ++
  (if files.contains ("setup.py".toList) then ["setup.py".toList] else []) ++
  (if files.contains ("Cargo.toml".toList) then ["Cargo.toml".toList] else []) ++
  (if files.contains ("go.mod".toList) then ["go.mod".toList] else []) ++
  (if files.contains ("pom.xml".toList) then ["pom.xml".toList] else []) ++
  (if files.contains ("build.gradle".toList) then ["build.gradle".toList] else []) ++
  (if files.contains ("Dockerfile".toList) then ["Dockerfile".toList] else []) ++
  (if files.contains (".env.example".toList) || files.contains (".env.template".toList) then
     [if files.contains (".env.example".toList) then ".env.example".toList
      else ".env.template".toList]
   else [])

/-- A section of the fixed README template. -/
structure TemplateSection where
  name : Str
  description : Str
  required : Bool

/-- The fixed template record. -/
structure ReadmeTemplate where
  sections : List TemplateSection

/-- The process-wide `README_TEMPLATE` constant. -/
def README_TEMPLATE : ReadmeTemplate :=
  { sections :=
    [ { name := "Project Title".toList,
        description := "The main title/name of the project".toList,
        required := true },
      { name := "Description".toList,
        description := "A brief overview of what the project does".toList,
        required := true },
      { name := "Features".toList,
        description := "Key features and capabilities of the project".toList,
        required := false },
      { name := "Installation".toList,
        description := "Steps to install and set up the project".toList,
        required := true },
      { name := "Usage".toList,
        description := "How to use the project, including examples".toList,
        required := true },
      { name := "Project Structure".toList,
        description := "Directory/file structure overview".toList,
        required := false },
      { name := "Technologies Used".toList,
        description := "List of technologies, frameworks, and tools used".toList,
        required := false },
      { name := "Configuration".toList,
        description := "Configuration options, environment variables, etc.".toList,
        required := false },
      { name := "Contributing".toList,
        description := "Guidelines for contributing to the project".toList,
        required := false },
      { name := "License".toList,
        description := "License information".toList,
        required := false } ] }

/-- The `projectData` record returned by `analyzeProject`. -/
structure ProjectData where
  projectName : Str
  description : Option Str
  version : Option Str
  author : Option (Sum Str Str)
  license : Option Str
  homepage : Option Str
  repository : Option (Sum Str Str)
  scripts : List (Str × Str)
  dependencies : List Str
  devDependencies : List Str
  detectedTechnologies : List Str
  configFiles : List Str
  directoryStructure : Option Node
  directoryStructureFormatted : Str
  rootFiles : List Str

/-- The full value returned by `analyzeProject`. -/
structure AnalysisResult where
  template : ReadmeTemplate
  projectData : ProjectData

/-- The `packageJson` computation of `analyzeProject`: read
`package.json` at the project root and parse it; any read or parse
failure yields `none` (the inner `catch`). -/
def packageJsonOf (t : Option FsTree) (parseJson : Str → Option PackageJson) :
    Option PackageJson :=
  match readFileFs (childNamed t ("package.json".toList)) with
  | Except.error _ => none
  | Except.ok content => parseJson content

/-- Models `Failed to analyze project: ${error}`. -/
def wrapAnalyzeErr (e : Str) : Str :=
  ("Failed to analyze project: ".toList) ++ e

/-- `parse(projectPath).base`: the last path segment (no fallback). -/
def baseName (p : List Str) : Str :=
  (p.getLast?).getD []

/-- Shallow embedding of `analyzeProject(projectPath)`.  `t` is what
`projectPath` resolves to; `parseJson` models `JSON.parse` (`none` =
parse throws). -/
def analyzeProject (t : Option FsTree) (projectPath : List Str)
    (parseJson : Str → Option PackageJson) : Except Str AnalysisResult :=
  match getDirectoryStructureAt t projectPath 3 0 defaultIgnorePatterns with
  | Except.error e => Except.error (wrapAnalyzeErr e)
  | Except.ok dirStructure =>
    let packageJson := packageJsonOf t parseJson
    match readdirNames t with
    | Except.error e => Except.error (wrapAnalyzeErr e)
    | Except.ok files =>
      Except.ok
        { template := README_TEMPLATE,
          projectData :=
          { projectName := jsOrStr (packageJson.bind PackageJson.name) (baseName projectPath),
            description := jsTruthy (packageJson.bind PackageJson.description),
            version := jsTruthy (packageJson.bind PackageJson.version),
            author := jsTruthySum (packageJson.bind PackageJson.author),
            license := jsTruthy (packageJson.bind PackageJson.license),
            homepage := jsTruthy (packageJson.bind PackageJson.homepage),
            repository := jsTruthySum (packageJson.bind PackageJson.repository),
            scripts := (packageJson.bind PackageJson.scripts).getD [],
            dependencies := (packageJson.bind PackageJson.dependencies).getD [],
            devDependencies := (packageJson.bind PackageJson.devDependencies).getD [],
            detectedTechnologies := detectedTechnologiesOf files,
            configFiles := configFilesOf files,
            directoryStructure := dirStructure,
            -- with the default depth 3 a successful scan is never null,
            -- so the null branch below is unreachable
            directoryStructureFormatted :=
              match dirStructure with
              | some n => formatDirectoryStructure n 0
              | none => [],
            rootFiles := files } }

/-- The string (`inl`) or object (`inr`) payload of `author` /
`repository` as the renderer uses it (`JSON.stringify(author)` resp.
`repository.url` for the object form). -/
def sumStrVal : Sum Str Str → Str
  | Sum.inl s => s
  | Sum.inr s => s

/-- The badge list of `generateReadme`, in source order. -/
def badgesOf (p : ProjectData) : List Str :=
  (match jsTruthy p.version with
   | some v => [("![Version](https://img.shields.io/badge/version-".toList) ++ v ++ ("-blue.svg)".toList)]
   | none => []) ++
  (match jsTruthy p.license with
   | some l => [("![License](https://img.shields.io/badge/license-".toList) ++ l ++ ("-green.svg)".toList)]
   | none => []) ++
  (if p.detectedTechnologies.contains ("Node.js".toList) then
     ["![Node.js](https://img.shields.io/badge/node.js-âœ“-brightgreen.svg)".toList] else []) ++
  (if p.detectedTechnologies.contains ("TypeScript".toList) then
     ["![TypeScript](https://img.shields.io/badge/typescript-âœ“-blue.svg)".toList] else []) ++
  (if p.detectedTechnologies.contains ("Python".toList) then
     ["![Python](https://img.shields.io/badge/python-âœ“-yellow.svg)".toList] else []) ++
  (if p.detectedTechnologies.contains ("Rust".toList) then
     ["![Rust](https://img.shields.io/badge/rust-âœ“-orange.svg)".toList] else []) ++
  (if p.detectedTechnologies.contains ("Go".toList) then
     ["![Go](https://img.shields.io/badge/go-âœ“-00ADD8.svg)".toList] else [])

/-- The Installation section of `generateReadme` (source lines
244-263): a `bash` code block whose single command is selected by the
first matching technology when any dependency name is present, and a
fallback clone instruction otherwise. -/
def installationSection (dependencies devDependencies detectedTechnologies : List Str) : Str :=
  ("## ðŸ“¦ Installation\n\n".toList) ++
  (if dependencies.length > 0 || devDependencies.length > 0 then
    ("```bash\n".toList) ++
    (if detectedTechnologies.contains ("Node.js".toList) then "npm install\n".toList
     else if detectedTechnologies.contains ("Python".toList) then "pip install -r requirements.txt\n".toList
     else if detectedTechnologies.contains ("Rust".toList) then "cargo build\n".toList
     else if detectedTechnologies.contains ("Go".toList) then "go mod download\n".toList
     else []) ++
    ("```\n\n".toList)
   else
    ("Clone the repository and follow the setup instructions.\n\n".toList))

/-- The Usage section of `generateReadme`. -/
def usageSection (scripts : List (Str × Str)) : Str :=
  if scripts.length > 0 then
    ("## ðŸš€ Usage\n\nAvailable scripts:\n\n".toList) ++
    (scripts.map (fun sc =>
      ("```bash\nnpm run ".toList) ++ sc.1 ++ ("\n```\n".toList) ++
      sc.2 ++ ("\n\n".toList))).flatten
  else []

/-- Shallow embedding of `generateReadme(projectData)`. -/
def generateReadme (p : ProjectData) : Str :=
  ("# ".toList) ++ p.projectName ++ ("\n\n".toList) ++
  (let badges := badgesOf p
   if badges.length > 0 then
     (List.intersperse (" ".toList) badges).flatten ++ ("\n\n".toList)
   else []) ++
  (match jsTruthy p.description with
   | some d => ("## ðŸ“ Description\n\n".toList) ++ d ++ ("\n\n".toList)
   | none => []) ++
  (if p.detectedTechnologies.length > 0 then
     ("## ðŸ› ï¸ Technologies Used\n\n".toList) ++
     (p.detectedTechnologies.map (fun t => ("- ".toList) ++ t ++ ("\n".toList))).flatten ++
     ("\n".toList)
   else []) ++
  installationSection p.dependencies p.devDependencies p.detectedTechnologies ++
  usageSection p.scripts ++
  (if p.directoryStructureFormatted.length > 0 then
     ("## ðŸ“ Project Structure\n\n```\n".toList) ++
     p.directoryStructureFormatted ++ ("```\n\n".toList)
   else []) ++
  (if p.dependencies.length > 0 then
     ("## ðŸ“š Dependencies\n\n".toList) ++
     (p.dependencies.map (fun d => ("- ".toList) ++ d ++ ("\n".toList))).flatten ++
     ("\n".toList)
   else []) ++
  (if p.devDependencies.length > 0 then
     ("## ðŸ”§ Dev Dependencies\n\n".toList) ++
     (p.devDependencies.map (fun d => ("- ".toList) ++ d ++ ("\n".toList))).flatten ++
     ("\n".toList)
   else []) ++
  (match jsTruthy p.license with
   | some l =>
     ("## ðŸ“„ License\n\nThis project is licensed under the ".toList) ++
     l ++ (" License.\n\n".toList)
   | none => []) ++
  (match jsTruthySum p.author with
   | some a => ("## ðŸ‘¤ Author\n\n".toList) ++ sumStrVal a ++ ("\n\n".toList)
   | none => []) ++
  (match jsTruthy p.homepage, jsTruthySum p.repository with
   | none, none => []
   | h, r =>
     ("## ðŸ”— Links\n\n".toList) ++
     (match h with
      | some hp => ("- [Homepage](".toList) ++ hp ++ (")\n".toList)
      | none => []) ++
     (match r with
      | some rp => ("- [Repository](".toList) ++ sumStrVal rp ++ (")\n".toList)
      | none => []) ++
     ("\n".toList)) ++
  ("---\n\n*Generated with â¤ï¸ by README Generator MCP Server*\n".toList)

/-- A dispatched tool call with its arguments. -/
inductive ToolCall : Type where
  | readProjectStructure (path : List Str) (maxDepth : Nat) : ToolCall
  | readFileTool (path : List Str) : ToolCall
  | analyzeProjectTool (projectPath : List Str) : ToolCall
  | generateReadmeTool (projectPath : List Str) : ToolCall
  | unknownTool (name : Str) : ToolCall

/-- The response returned to the transport: a single text payload and
the error flag (absent = `false` on the success paths). -/
structure ToolResponse where
  text : Str
  isError : Bool

/-- The catch branch of the `CallToolRequestSchema` handler. -/
def errorResponse (msg : Str) : ToolResponse :=
  { text := ("Error: ".toList) ++ msg, isError := true }

/-- Shallow embedding of the `CallToolRequestSchema` dispatch handler.
`root` is the modelled filesystem root, `parseJson` models `JSON.parse`
and the two `stringify` parameters model `JSON.stringify(-, null, 2)`
on the success payloads. -/
def handleToolCall (root : FsTree) (parseJson : Str → Option PackageJson)
    (stringifyStructure : Option Node → Str)
    (stringifyAnalysis : AnalysisResult → Str) : ToolCall → ToolResponse
  | ToolCall.readProjectStructure path maxDepth =>
    match getDirectoryStructureAt (resolve (some root) path) path maxDepth 0 defaultIgnorePatterns with
    | Except.ok s => { text := stringifyStructure s, isError := false }
    | Except.error e => errorResponse e
  | ToolCall.readFileTool path =>
    match readFileFs (resolve (some root) path) with
    | Except.ok c => { text := c, isError := false }
    | Except.error e => errorResponse e
  | ToolCall.analyzeProjectTool p =>
    match analyzeProject (resolve (some root) p) p parseJson with
    | Except.ok a => { text := stringifyAnalysis a, isError := false }
    | Except.error e => errorResponse e
  | ToolCall.generateReadmeTool p =>
    match analyzeProject (resolve (some root) p) p parseJson with
    | Except.ok a => { text := generateReadme a.projectData, isError := false }
    | Except.error e => errorResponse e
  | ToolCall.unknownTool n => errorResponse (("Unknown tool: ".toList) ++ n)

/-! ## Specification-side definitions -/

/-- `true` on `Except.ok`. -/
def isOkE : Except ε α → Bool
  | Except.ok _ => true
  | Except.error _ => false

mutual

/-- Depth of a scan tree: a file contributes 0, a directory one plus
the deepest child. -/
def nodeDepth : Node → Nat
  | Node.file _ _ => 0
  | Node.dir _ cs => 1 + listDepth cs

/-- Depth of the deepest node of a list. -/
def listDepth : List Node → Nat
  | [] => 0
  | n :: rest => max (nodeDepth n) (listDepth rest)

end

mutual

/-- `NodeFrom n t`: the scan node `n` is shaped from the filesystem
tree `t` with each children list an order-preserving selection of the
corresponding entry list. -/
inductive NodeFrom : Node → FsTree → Prop where
  | dir (nm fnm : Str) (lb : Bool) (cs : List Node) (es : List FsTree) :
      ChildrenFrom cs es → NodeFrom (Node.dir nm cs) (FsTree.dir fnm lb es)

/-- `ChildrenFrom cs es`: the node list `cs` selects, in order, from
the entry list `es`; file nodes keep the entry name. -/
inductive ChildrenFrom : List Node → List FsTree → Prop where
  | nil : ChildrenFrom [] []
  | skip (e : FsTree) (cs : List Node) (es : List FsTree) :
      ChildrenFrom cs es → ChildrenFrom cs (e :: es)
  | fileC (nm : Str) (ct : Option Str) (pth : List Str) (cs : List Node) (es : List FsTree) :
      ChildrenFrom cs es → ChildrenFrom (Node.file nm pth :: cs) (FsTree.file nm ct :: es)
  | dirC (n : Node) (e : FsTree) (cs : List Node) (es : List FsTree) :
      NodeFrom n e → ChildrenFrom cs es → ChildrenFrom (n :: cs) (e :: es)

end

mutual

/-- Remove every ignored entry (and hence its whole subtree) from a
filesystem tree; the root itself is kept. -/
def pruneFs (pats : List Str) : FsTree → FsTree
  | FsTree.file n ct => FsTree.file n ct
  | FsTree.dir n lb es => FsTree.dir n lb (pruneList pats es)

/-- The entry-list part of `pruneFs`. -/
def pruneList (pats : List Str) : List FsTree → List FsTree
  | [] => []
  | e :: rest =>
    if isIgnored pats (fsName e) then pruneList pats rest
    else pruneFs pats e :: pruneList pats rest

end

mutual

/-- Names of all strict descendants of a scan node. -/
def strictDescNames : Node → List Str
  | Node.file _ _ => []
  | Node.dir _ cs => descListNames cs

/-- Names of the listed nodes and all their descendants. -/
def descListNames : List Node → List Str
  | [] => []
  | n :: rest => nodeName n :: (strictDescNames n ++ descListNames rest)

end

mutual

/-- All entry names below this tree are nonempty (as `readdir` always
reports). -/
def entryNamesNonEmpty : FsTree → Bool
  | FsTree.file _ _ => true
  | FsTree.dir _ _ es => entryListNamesNonEmpty es

/-- The entry-list part of `entryNamesNonEmpty`. -/
def entryListNamesNonEmpty : List FsTree → Bool
  | [] => true
  | e :: rest =>
    !(fsName e).isEmpty && entryNamesNonEmpty e && entryListNamesNonEmpty rest

end

mutual

/-- Pre-order, depth-first traversal of a scan tree: each visited node
as (depth, name, is-directory). -/
def preorderNodes : Node → Nat → List (Nat × Str × Bool)
  | Node.dir nm cs, d => (d, nm, true) :: preorderNodesList cs (d + 1)
  | Node.file nm _, d => [(d, nm, false)]

/-- The list part of `preorderNodes`. -/
def preorderNodesList : List Node → Nat → List (Nat × Str × Bool)
  | [], _ => []
  | c :: rest, d => preorderNodes c d ++ preorderNodesList rest d

end

/-- The rendered line of one pre-order element (without its newline):
two spaces per depth level, the name, and a `/` suffix for directories. -/
def rawLineOf : Nat × Str × Bool → Str
  | (d, nm, dirFlag) => indentOf d ++ nm ++ (if dirFlag then ['/'] else [])

/-- The rendered line of one pre-order element, newline included. -/
def lineOf (e : Nat × Str × Bool) : Str :=
  rawLineOf e ++ ['\n']

/-- The (depth, name) part of the pre-order traversal. -/
def preorderNames (n : Node) (d : Nat) : List (Nat × Str) :=
  (preorderNodes n d).map (fun e => (e.1, e.2.1))

/-- Split a string at every newline (JavaScript `split("\n")`
semantics: a trailing newline yields a final empty piece). -/
def splitLines : Str → List Str
  | [] => [[]]
  | c :: rest =>
    if c = '\n' then [] :: splitLines rest
    else
      match splitLines rest with
      | [] => [[c]]
      | l :: ls => (c :: l) :: ls

/-- Count the leading spaces of a line. -/
def countLeadingSpaces : Str → Nat
  | [] => 0
  | c :: rest => if c = ' ' then countLeadingSpaces rest + 1 else 0

/-- Remove one trailing `/` (the directory suffix), if present. -/
def stripDirSlash (c : Str) : Str :=
  if c.getLast? = some '/' then c.dropLast else c

/-- Recover (depth, name) from one rendered line: the depth is half the
leading-space count, the name is the remainder with a directory slash
stripped. -/
def parseLine (l : Str) : Nat × Str :=
  let d := countLeadingSpaces l / 2
  (d, stripDirSlash (l.drop (2 * d)))

/-- Re-parse a rendering: split into lines, drop the final empty piece
after the trailing newline, and parse each line's indentation. -/
def parseRendered (s : Str) : List (Nat × Str) :=
  ((splitLines s).dropLast).map parseLine

/-- Well-formedness of one rendered node for the round-trip: the name
has no newline, no leading space, and a file name has no trailing
slash. -/
def wfName : Nat × Str × Bool → Bool
  | (_, nm, dirFlag) =>
    !(nm.contains '\n') && nm.head? != some ' ' &&
      (dirFlag || nm.getLast? != some '/')

/-- The ordered marker-to-technology table of the analyzer. -/
def markerTable : List (Str × Str) :=
  [("package.json".toList, "Node.js".toList),
   ("tsconfig.json".toList, "TypeScript".toList),
   ("requirements.txt".toList, "Python".toList),
   ("setup.py".toList, "Python".toList),
   ("Cargo.toml".toList, "Rust".toList),
   ("go.mod".toList, "Go".toList),
   ("pom.xml".toList, "Java".toList),
   ("build.gradle".toList, "Java/Gradle".toList),
   ("Dockerfile".toList, "Docker".toList)]

/-- The install command chosen by the first matching technology in
priority order Node.js, Python, Rust, Go; empty when none matches. -/
def priorityCommand (detectedTechnologies : List Str) : Str :=
  if detectedTechnologies.contains ("Node.js".toList) then "npm install\n".toList
  else if detectedTechnologies.contains ("Python".toList) then "pip install -r requirements.txt\n".toList
  else if detectedTechnologies.contains ("Rust".toList) then "cargo build\n".toList
  else if detectedTechnologies.contains ("Go".toList) then "go mod download\n".toList
  else []

/-! ## Theorems -/

/-- Example filesystem: a listable directory with one readable file. -/
def exListableDir : FsTree :=
  FsTree.dir ("proj".toList) true [FsTree.file ("a.txt".toList) (some [])]

/-- C1 counterexample: scanning a listable directory with
`maxDepth = 0` returns `Except.ok none` — no node at all — rather than
a directory node with an empty children list. -/
theorem scan_depth_zero_cex :
    getDirectoryStructure exListableDir [("proj".toList)] 0 0 defaultIgnorePatterns =
      Except.ok none ∧
    (Except.ok (none : Option Node) : Except Str (Option Node)) ≠
      Except.ok (some (Node.dir ("proj".toList) [])) := by
  refine ⟨rfl, ?_⟩
  intro h
  injection h with h2
  exact Option.noConfusion h2

/-- C1 (amended): for every filesystem tree, path and ignore list, a
scan with `maxDepth = 0` returns no node (`Except.ok none`): the depth
guard fires before any directory listing. -/
theorem scan_maxDepth_zero_returns_none (t : FsTree) (p : List Str) (pats : List Str) :
    getDirectoryStructure t p 0 0 pats = Except.ok none := by
  unfold getDirectoryStructure
  simp

/-- C6: when any dependency or dev-dependency name is present the
Installation section is the header plus a `bash` code block holding
exactly the command chosen by the first matching detected technology in
priority order Node.js, Python, Rust, Go — and no command line at all
when none of the four is detected; with no dependency names it is the
header plus the fallback clone instruction. -/
theorem installation_section_spec (deps devs techs : List Str) :
    (deps ≠ [] ∨ devs ≠ [] →
      installationSection deps devs techs =
        ("## ðŸ“¦ Installation\n\n".toList) ++
          (("```bash\n".toList) ++ priorityCommand techs ++ ("```\n\n".toList))) ∧
    (techs.contains ("Node.js".toList) = false ∧ techs.contains ("Python".toList) = false ∧
      techs.contains ("Rust".toList) = false ∧ techs.contains ("Go".toList) = false →
      priorityCommand techs = []) ∧
    (deps = [] ∧ devs = [] →
      installationSection deps devs techs =
        ("## ðŸ“¦ Installation\n\nClone the repository and follow the setup instructions.\n\n".toList)) := by
  refine ⟨?_, ?_, ?_⟩
  · intro h
    have hcond : (decide (deps.length > 0) || decide (devs.length > 0)) = true := by
      rcases h with h | h
      · simp [List.length_pos.2 h]
      · simp [List.length_pos.2 h]
    simp [installationSection, priorityCommand, hcond]
  · rintro ⟨h1, h2, h3, h4⟩
    simp at h1 h2 h3 h4
    simp [priorityCommand, h1, h2, h3, h4]
  · rintro ⟨h1, h2⟩
    subst h1; subst h2
    simp [installationSection]

/-- Witness for C6 at concrete inputs. -/
theorem installation_section_spec_witness :
    installationSection [("react".toList)] [] [("Node.js".toList)] =
      ("## ðŸ“¦ Installation\n\n".toList) ++
        (("```bash\n".toList) ++ priorityCommand [("Node.js".toList)] ++ ("```\n\n".toList)) ∧
    priorityCommand [("Docker".toList)] = [] ∧
    installationSection [] [] [("Node.js".toList)] =
      ("## ðŸ“¦ Installation\n\nClone the repository and follow the setup instructions.\n\n".toList) := by
  refine ⟨(installation_section_spec _ _ _).1 (Or.inl (by decide)),
    (installation_section_spec [] [] _).2.1 (by decide),
    (installation_section_spec _ _ _).2.2 ⟨rfl, rfl⟩⟩

/-- `"/\n"` as a character list. -/
theorem toList_slash_nl : ("/\n".toList : Str) = ['/', '\n'] := rfl

/-- `"\n"` as a character list. -/
theorem toList_nl : ("\n".toList : Str) = ['\n'] := rfl

mutual

/-- The renderer produces exactly the concatenated pre-order lines. -/
theorem format_eq_lines : ∀ (n : Node) (d : Nat),
    formatDirectoryStructure n d = ((preorderNodes n d).map lineOf).flatten
  | Node.dir nm cs, d => by
      simp [formatDirectoryStructure, preorderNodes, lineOf, rawLineOf,
        formatChildren_eq_lines cs (d + 1), toList_slash_nl, List.append_assoc]
  | Node.file nm pth, d => by
      simp [formatDirectoryStructure, preorderNodes, lineOf, rawLineOf, toList_nl]

/-- The child-loop part of `format_eq_lines`. -/
theorem formatChildren_eq_lines : ∀ (cs : List Node) (d : Nat),
    formatChildren cs d = ((preorderNodesList cs d).map lineOf).flatten
  | [], d => by simp [formatChildren, preorderNodesList]
  | c :: rest, d => by
      simp [formatChildren, preorderNodesList, format_eq_lines c d,
        formatChildren_eq_lines rest d]

end

/-- C8: `formatDirectoryStructure` renders the pre-order depth-first
traversal, each line being two spaces per depth level, the node name, a
`/` suffix plus newline for directories and a bare newline for files. -/
theorem format_renders_preorder (n : Node) (d : Nat) :
    formatDirectoryStructure n d =
      ((preorderNodes n d).map (fun e =>
        List.replicate (2 * e.1) ' ' ++ e.2.1 ++
          (if e.2.2 then ("/\n".toList) else ("\n".toList)))).flatten := by
  have hmap : ∀ e : Nat × Str × Bool, lineOf e =
      List.replicate (2 * e.1) ' ' ++ e.2.1 ++
        (if e.2.2 then ("/\n".toList) else ("\n".toList)) := by
    rintro ⟨d', nm, b⟩
    cases b <;> simp [lineOf, rawLineOf, indentOf, toList_slash_nl, toList_nl, List.append_assoc]
  rw [format_eq_lines n d]
  congr 1
  exact List.map_congr_left (fun e _ => hmap e)

/-- Splitting at the first newline of a well-placed line. -/
theorem splitLines_append_nl (xs rest : Str) (h : '\n' ∉ xs) :
    splitLines (xs ++ '\n' :: rest) = xs :: splitLines rest := by
  induction xs with
  | nil => simp [splitLines]
  | cons c xs' ih =>
    have hc : c ≠ '\n' := by
      intro hc; exact h (hc ▸ List.mem_cons_self c xs')
    have h' : '\n' ∉ xs' := fun hm => h (List.mem_cons_of_mem c hm)
    simp only [List.cons_append, splitLines, if_neg hc, List.append_eq, ih h']

/-- Splitting the concatenation of newline-terminated lines recovers
the lines (plus the final empty piece). -/
theorem splitLines_flatten (raws : List Str) (h : ∀ r ∈ raws, '\n' ∉ r) :
    splitLines ((raws.map (fun r => r ++ ['\n'])).flatten) = raws ++ [[]] := by
  induction raws with
  | nil => simp [splitLines]
  | cons r rs ih =>
    have hr : '\n' ∉ r := h r (List.mem_cons_self r rs)
    have hrs : ∀ x ∈ rs, '\n' ∉ x := fun x hx => h x (List.mem_cons_of_mem r hx)
    simp only [List.map_cons, List.flatten_cons, List.append_assoc, List.singleton_append]
    rw [splitLines_append_nl _ _ hr, ih hrs]
    simp

/-- Leading spaces of an indented line. -/
theorem countLeadingSpaces_replicate (k : Nat) (xs : Str) :
    countLeadingSpaces (List.replicate k ' ' ++ xs) = k + countLeadingSpaces xs := by
  induction k with
  | zero => simp
  | succ k ih => simp [List.replicate_succ, countLeadingSpaces, ih]; omega

/-- A line whose head is not a space has no leading spaces. -/
theorem countLeadingSpaces_eq_zero (xs : Str) (h : xs.head? ≠ some ' ') :
    countLeadingSpaces xs = 0 := by
  cases xs with
  | nil => rfl
  | cons c rest =>
    have : c ≠ ' ' := by
      intro hc; exact h (by simp [hc])
    simp [countLeadingSpaces, this]

/-- Parsing one rendered line of a well-formed node recovers its depth
and name. -/
theorem parseLine_rawLineOf (e : Nat × Str × Bool) (h : wfName e = true) :
    parseLine (rawLineOf e) = (e.1, e.2.1) := by
  rcases e with ⟨d, nm, b⟩
  simp only [wfName, Bool.and_eq_true, bne_iff_ne, ne_eq, Bool.not_eq_true',
    Bool.or_eq_true] at h
  obtain ⟨⟨hnl, hhead⟩, hslash⟩ := h
  have hraw : rawLineOf (d, nm, b) =
      List.replicate (2 * d) ' ' ++ (nm ++ (if b then ['/'] else [])) := by
    simp [rawLineOf, indentOf, List.append_assoc]
  have hcount : countLeadingSpaces (nm ++ (if b then ['/'] else [])) = 0 := by
    cases hm : nm with
    | nil =>
      cases b <;> simp [countLeadingSpaces]
    | cons c rest =>
      have : c ≠ ' ' := by
        intro hc
        subst hm
        exact hhead (by simp [hc])
      simp [countLeadingSpaces, this]
  have hk : countLeadingSpaces (rawLineOf (d, nm, b)) = 2 * d := by
    rw [hraw, countLeadingSpaces_replicate, hcount]
    omega
  simp only [parseLine, hk]
  have hd : 2 * d / 2 = d := by omega
  rw [hd, hraw]
  have hdrop := List.drop_left (List.replicate (2 * d) ' ') (nm ++ (if b then ['/'] else []))
  rw [List.length_replicate] at hdrop
  rw [hdrop]
  cases b with
  | true =>
    simp [stripDirSlash, List.getLast?_concat, List.dropLast_concat]
  | false =>
    have hs : nm.getLast? ≠ some '/' := by
      rcases hslash with hslash | hslash
      · exact absurd hslash (by simp)
      · exact hslash
    simp [stripDirSlash, hs]

/-- A well-formed raw line contains no newline. -/
theorem rawLineOf_no_nl (e : Nat × Str × Bool) (h : wfName e = true) :
    '\n' ∉ rawLineOf e := by
  rcases e with ⟨d, nm, b⟩
  simp only [wfName, Bool.and_eq_true, bne_iff_ne, ne_eq, Bool.not_eq_true',
    Bool.or_eq_true] at h
  obtain ⟨⟨hnl, _⟩, _⟩ := h
  have hnl' : '\n' ∉ nm := by simpa using hnl
  intro hm
  simp only [rawLineOf, indentOf, List.mem_append] at hm
  rcases hm with (hm | hm) | hm
  · exact absurd (List.eq_of_mem_replicate hm) (by decide)
  · exact hnl' hm
  · cases b <;> simp_all

/-- C9 (amended): rendering a tree whose node names contain no newline,
do not begin with a space, and (for files) do not end with `/`, and
then re-parsing the indentation, recovers exactly the pre-order
(depth, name) sequence of the tree. -/
theorem render_parse_roundtrip (n : Node) (h : (preorderNodes n 0).all wfName = true) :
    parseRendered (formatDirectoryStructure n 0) = preorderNames n 0 := by
  rw [List.all_eq_true] at h
  rw [parseRendered, format_eq_lines n 0]
  have hmm : (preorderNodes n 0).map lineOf =
      ((preorderNodes n 0).map rawLineOf).map (fun r => r ++ ['\n']) := by
    rw [List.map_map]; rfl
  rw [hmm, splitLines_flatten _ (by
    intro r hr
    rw [List.mem_map] at hr
    obtain ⟨e, he, rfl⟩ := hr
    exact rawLineOf_no_nl e (h e he))]
  rw [List.dropLast_concat, List.map_map]
  rw [preorderNames]
  exact List.map_congr_left (fun e he => parseLine_rawLineOf e (h e he))

/-- A tree with a newline inside a file name. -/
def exBadTree : Node :=
  Node.dir ("d".toList) [Node.file ("a\nb".toList) []]

/-- C9 counterexample: for a tree with a file named `"a\nb"`,
re-parsing the rendering does not recover the original names and
depths. -/
theorem render_parse_roundtrip_cex :
    parseRendered (formatDirectoryStructure exBadTree 0) ≠ preorderNames exBadTree 0 := by
  decide

/-- A small well-formed tree. -/
def exGoodTree : Node :=
  Node.dir ("src".toList)
    [Node.file ("a.txt".toList) [], Node.dir ("sub".toList) [Node.file ("b".toList) []]]

/-- Witness for C9 at a concrete well-formed tree. -/
theorem render_parse_roundtrip_witness :
    (preorderNodes exGoodTree 0).all wfName = true ∧
    parseRendered (formatDirectoryStructure exGoodTree 0) = preorderNames exGoodTree 0 :=
  ⟨by decide, render_parse_roundtrip exGoodTree (by decide)⟩

mutual

/-- A successful non-null scan at `currentDepth = c` yields a tree of
depth at most `maxDepth - c`. -/
theorem scan_depth_le : ∀ (t : FsTree) (p : List Str) (md c : Nat) (pats : List Str)
    (n : Node), getDirectoryStructure t p md c pats = Except.ok (some n) →
    nodeDepth n ≤ md - c
  | FsTree.file fn ct, p, md, c, pats, n, h => by
    unfold getDirectoryStructure at h
    split at h
    · simp at h
    · simp at h
  | FsTree.dir fn lb es, p, md, c, pats, n, h => by
    unfold getDirectoryStructure at h
    by_cases hmd : md ≤ c
    · rw [if_pos hmd] at h; simp at h
    · rw [if_neg hmd] at h
      cases lb with
      | false => simp at h
      | true =>
        cases hs : scanEntries es p md c pats with
        | error e => simp [hs] at h
        | ok cs =>
          simp only [hs, Except.ok.injEq, Option.some.injEq] at h
          subst h
          have hcs := scanEntries_depth_le es p md c pats cs hs
          simp only [nodeDepth]
          omega

/-- The entry loop at `currentDepth = c` yields children of depth at
most `maxDepth - (c + 1)`. -/
theorem scanEntries_depth_le : ∀ (es : List FsTree) (p : List Str) (md c : Nat)
    (pats : List Str) (ns : List Node),
    scanEntries es p md c pats = Except.ok ns → listDepth ns ≤ md - (c + 1)
  | [], p, md, c, pats, ns, h => by
    unfold scanEntries at h
    simp only [Except.ok.injEq] at h
    subst h
    simp [listDepth]
  | e :: rest, p, md, c, pats, ns, h => by
    unfold scanEntries at h
    by_cases hig : isIgnored pats (fsName e) = true
    · rw [if_pos hig] at h
      exact scanEntries_depth_le rest p md c pats ns h
    · rw [if_neg hig] at h
      cases e with
      | file fn ct =>
        cases hs : scanEntries rest p md c pats with
        | error er => simp [hs] at h
        | ok tail =>
          simp only [hs, Except.ok.injEq] at h
          subst h
          have htail := scanEntries_depth_le rest p md c pats tail hs
          simp only [listDepth, nodeDepth]
          omega
      | dir fn lb cs =>
        cases hsub : getDirectoryStructure (FsTree.dir fn lb cs) (p ++ [fn]) md (c + 1) pats with
        | error er => simp [hsub] at h
        | ok o =>
          cases o with
          | none =>
            simp only [hsub] at h
            exact scanEntries_depth_le rest p md c pats ns h
          | some nd =>
            simp only [hsub] at h
            cases hs : scanEntries rest p md c pats with
            | error er => simp [hs] at h
            | ok tail =>
              simp only [hs, Except.ok.injEq] at h
              subst h
              have hnd := scan_depth_le (FsTree.dir fn lb cs) (p ++ [fn]) md (c + 1) pats nd hsub
              have htail := scanEntries_depth_le rest p md c pats tail hs
              simp only [listDepth]
              omega

end

mutual

/-- A successful non-null scan produces a node shaped from the scanned
tree, children in enumeration order. -/
theorem scan_nodeFrom : ∀ (t : FsTree) (p : List Str) (md c : Nat) (pats : List Str)
    (n : Node), getDirectoryStructure t p md c pats = Except.ok (some n) →
    NodeFrom n t
  | FsTree.file fn ct, p, md, c, pats, n, h => by
    unfold getDirectoryStructure at h
    split at h
    · simp at h
    · simp at h
  | FsTree.dir fn lb es, p, md, c, pats, n, h => by
    unfold getDirectoryStructure at h
    by_cases hmd : md ≤ c
    · rw [if_pos hmd] at h; simp at h
    · rw [if_neg hmd] at h
      cases lb with
      | false => simp at h
      | true =>
        cases hs : scanEntries es p md c pats with
        | error e => simp [hs] at h
        | ok cs =>
          simp only [hs, Except.ok.injEq, Option.some.injEq] at h
          subst h
          exact NodeFrom.dir _ _ _ _ _ (scanEntries_childrenFrom es p md c pats cs hs)

/-- The entry loop produces a children list that selects, in order,
from the entry list. -/
theorem scanEntries_childrenFrom : ∀ (es : List FsTree) (p : List Str) (md c : Nat)
    (pats : List Str) (ns : List Node),
    scanEntries es p md c pats = Except.ok ns → ChildrenFrom ns es
  | [], p, md, c, pats, ns, h => by
    unfold scanEntries at h
    simp only [Except.ok.injEq] at h
    subst h
    exact ChildrenFrom.nil
  | e :: rest, p, md, c, pats, ns, h => by
    unfold scanEntries at h
    by_cases hig : isIgnored pats (fsName e) = true
    · rw [if_pos hig] at h
      exact ChildrenFrom.skip e _ _ (scanEntries_childrenFrom rest p md c pats ns h)
    · rw [if_neg hig] at h
      cases e with
      | file fn ct =>
        cases hs : scanEntries rest p md c pats with
        | error er => simp [hs] at h
        | ok tail =>
          simp only [hs, Except.ok.injEq] at h
          subst h
          exact ChildrenFrom.fileC fn ct _ _ _
            (scanEntries_childrenFrom rest p md c pats tail hs)
      | dir fn lb cs =>
        cases hsub : getDirectoryStructure (FsTree.dir fn lb cs) (p ++ [fn]) md (c + 1) pats with
        | error er => simp [hsub] at h
        | ok o =>
          cases o with
          | none =>
            simp only [hsub] at h
            exact ChildrenFrom.skip _ _ _ (scanEntries_childrenFrom rest p md c pats ns h)
          | some nd =>
            simp only [hsub] at h
            cases hs : scanEntries rest p md c pats with
            | error er => simp [hs] at h
            | ok tail =>
              simp only [hs, Except.ok.injEq] at h
              subst h
              exact ChildrenFrom.dirC nd _ _ _
                (scan_nodeFrom (FsTree.dir fn lb cs) (p ++ [fn]) md (c + 1) pats nd hsub)
                (scanEntries_childrenFrom rest p md c pats tail hs)

end

/-- C7: once `currentDepth >= maxDepth` the recursion returns no node
(the parent omits that branch), every tree returned by a scan started
at `currentDepth = c` has depth at most `maxDepth - c` (so at most
`maxDepth` for the root call), and every node's children select from
the filesystem enumeration in order. -/
theorem scan_depth_bound_and_order (t : FsTree) (p : List Str) (md c : Nat)
    (pats : List Str) :
    (md ≤ c → getDirectoryStructure t p md c pats = Except.ok none) ∧
    (∀ n, getDirectoryStructure t p md c pats = Except.ok (some n) →
      nodeDepth n ≤ md - c ∧ NodeFrom n t) := by
  constructor
  · intro h
    unfold getDirectoryStructure
    rw [if_pos h]
  · intro n h
    exact ⟨scan_depth_le t p md c pats n h, scan_nodeFrom t p md c pats n h⟩

/-- A concrete filesystem with an ignored entry and a subdirectory. -/
def exFs : FsTree :=
  FsTree.dir ("root".toList) true
    [FsTree.file ("a".toList) (some []),
     FsTree.dir ("node_modules".toList) true [FsTree.file ("x".toList) (some [])],
     FsTree.dir ("sub".toList) true [FsTree.file ("b".toList) (some [])]]

/-- The node the default scan produces for `exFs`. -/
def exFsScan : Node :=
  Node.dir ("root".toList)
    [Node.file ("a".toList) [("root".toList), ("a".toList)],
     Node.dir ("sub".toList)
       [Node.file ("b".toList) [("root".toList), ("sub".toList), ("b".toList)]]]

/-- Witness for C7 at a concrete scan. -/
theorem scan_depth_bound_and_order_witness :
    getDirectoryStructure exFs [("root".toList)] 3 0 defaultIgnorePatterns =
      Except.ok (some exFsScan) ∧
    nodeDepth exFsScan ≤ 3 - 0 ∧ NodeFrom exFsScan exFs :=
  ⟨rfl, (scan_depth_bound_and_order exFs [("root".toList)] 3 0 defaultIgnorePatterns).2
    exFsScan rfl⟩

/-- One-step unfolding of the scanner on a file. -/
theorem scan_file_eq (fn : Str) (ct : Option Str) (p : List Str) (md c : Nat)
    (pats : List Str) :
    getDirectoryStructure (FsTree.file fn ct) p md c pats =
      if md ≤ c then Except.ok none
      else Except.error (wrapScanErr ("ENOTDIR: not a directory".toList)) := rfl

/-- One-step unfolding of the scanner on a directory. -/
theorem scan_dir_eq (fn : Str) (lb : Bool) (es : List FsTree) (p : List Str)
    (md c : Nat) (pats : List Str) :
    getDirectoryStructure (FsTree.dir fn lb es) p md c pats =
      if md ≤ c then Except.ok none
      else if lb then
        match scanEntries es p md c pats with
        | Except.error e => Except.error (wrapScanErr e)
        | Except.ok children => Except.ok (some (Node.dir (scanDirName p) children))
      else Except.error (wrapScanErr ("EACCES: permission denied".toList)) := by
  cases lb <;> rfl

/-- One-step unfolding of the entry loop on the empty list. -/
theorem scanEntries_nil (p : List Str) (md c : Nat) (pats : List Str) :
    scanEntries [] p md c pats = Except.ok [] := rfl

/-- One-step unfolding of the entry loop on a cons. -/
theorem scanEntries_cons (e : FsTree) (rest : List FsTree) (p : List Str)
    (md c : Nat) (pats : List Str) :
    scanEntries (e :: rest) p md c pats =
      if isIgnored pats (fsName e) then
        scanEntries rest p md c pats
      else
        match e with
        | FsTree.file n _ =>
          match scanEntries rest p md c pats with
          | Except.error er => Except.error er
          | Except.ok tail => Except.ok (Node.file n (p ++ [n]) :: tail)
        | FsTree.dir n lb cs =>
          match getDirectoryStructure (FsTree.dir n lb cs) (p ++ [n]) md (c + 1) pats with
          | Except.error er => Except.error er
          | Except.ok none => scanEntries rest p md c pats
          | Except.ok (some nd) =>
            match scanEntries rest p md c pats with
            | Except.error er => Except.error er
            | Except.ok tail => Except.ok (nd :: tail) := by
  conv_lhs => unfold scanEntries

/-- One-step unfolding of `pruneList` on a cons. -/
theorem pruneList_cons (pats : List Str) (e : FsTree) (rest : List FsTree) :
    pruneList pats (e :: rest) =
      if isIgnored pats (fsName e) then pruneList pats rest
      else pruneFs pats e :: pruneList pats rest := rfl

/-- Pruning does not change an entry's name. -/
theorem fsName_pruneFs (pats : List Str) (e : FsTree) :
    fsName (pruneFs pats e) = fsName e := by
  cases e <;> rfl

mutual

/-- Scanning is unchanged when every ignored entry (with its whole
subtree) is removed first: ignored subtrees are never visited. -/
theorem scan_prune : ∀ (t : FsTree) (p : List Str) (md c : Nat) (pats : List Str),
    getDirectoryStructure (pruneFs pats t) p md c pats =
      getDirectoryStructure t p md c pats
  | FsTree.file fn ct, p, md, c, pats => rfl
  | FsTree.dir fn lb es, p, md, c, pats => by
    rw [show pruneFs pats (FsTree.dir fn lb es) = FsTree.dir fn lb (pruneList pats es) from rfl]
    rw [scan_dir_eq, scan_dir_eq, scanEntries_prune es p md c pats]

/-- The entry-loop part of `scan_prune`. -/
theorem scanEntries_prune : ∀ (es : List FsTree) (p : List Str) (md c : Nat)
    (pats : List Str),
    scanEntries (pruneList pats es) p md c pats = scanEntries es p md c pats
  | [], p, md, c, pats => rfl
  | e :: rest, p, md, c, pats => by
    by_cases hig : isIgnored pats (fsName e) = true
    · rw [pruneList_cons, if_pos hig, scanEntries_prune rest p md c pats,
        scanEntries_cons, if_pos hig]
    · rw [pruneList_cons, if_neg hig, scanEntries_cons, scanEntries_cons,
        fsName_pruneFs, if_neg hig, if_neg hig]
      cases e with
      | file fn ct =>
        simp only [pruneFs]
        rw [scanEntries_prune rest p md c pats]
      | dir fn lb cs =>
        simp only [pruneFs]
        have hsub := scan_prune (FsTree.dir fn lb cs) (p ++ [fn]) md (c + 1) pats
        simp only [pruneFs] at hsub
        rw [hsub, scanEntries_prune rest p md c pats]

end

/-- A successful non-null scan names the node after the path base. -/
theorem scan_ok_name (t : FsTree) (p : List Str) (md c : Nat) (pats : List Str)
    (n : Node) (h : getDirectoryStructure t p md c pats = Except.ok (some n)) :
    nodeName n = scanDirName p := by
  cases t with
  | file fn ct =>
    rw [scan_file_eq] at h
    split at h <;> simp at h
  | dir fn lb es =>
    rw [scan_dir_eq] at h
    by_cases hmd : md ≤ c
    · rw [if_pos hmd] at h; simp at h
    · rw [if_neg hmd] at h
      cases lb with
      | false => simp at h
      | true =>
        cases hs : scanEntries es p md c pats with
        | error e => simp [hs] at h
        | ok cs =>
          simp only [if_true, hs, Except.ok.injEq, Option.some.injEq] at h
          subst h
          rfl

/-- A path extended by a nonempty segment has that segment as base. -/
theorem scanDirName_snoc (p : List Str) (fn : Str) (h : fn ≠ []) :
    scanDirName (p ++ [fn]) = fn := by
  simp [scanDirName, List.getLast?_concat, h]

mutual

/-- Every strict descendant of a successful scan bears a non-ignored
name (all entry names being nonempty, as `readdir` guarantees). -/
theorem scan_descNames : ∀ (t : FsTree) (p : List Str) (md c : Nat) (pats : List Str)
    (n : Node), entryNamesNonEmpty t = true →
    getDirectoryStructure t p md c pats = Except.ok (some n) →
    ∀ nm ∈ strictDescNames n, isIgnored pats nm = false
  | FsTree.file fn ct, p, md, c, pats, n, hne, h => by
    rw [scan_file_eq] at h
    split at h <;> simp at h
  | FsTree.dir fn lb es, p, md, c, pats, n, hne, h => by
    rw [scan_dir_eq] at h
    by_cases hmd : md ≤ c
    · rw [if_pos hmd] at h; simp at h
    · rw [if_neg hmd] at h
      cases lb with
      | false => simp at h
      | true =>
        cases hs : scanEntries es p md c pats with
        | error e => simp [hs] at h
        | ok cs =>
          simp only [if_true, hs, Except.ok.injEq, Option.some.injEq] at h
          subst h
          simp only [strictDescNames]
          exact scanEntries_descNames es p md c pats cs
            (by simpa [entryNamesNonEmpty] using hne) hs

/-- The entry-loop part of `scan_descNames`. -/
theorem scanEntries_descNames : ∀ (es : List FsTree) (p : List Str) (md c : Nat)
    (pats : List Str) (ns : List Node), entryListNamesNonEmpty es = true →
    scanEntries es p md c pats = Except.ok ns →
    ∀ nm ∈ descListNames ns, isIgnored pats nm = false
  | [], p, md, c, pats, ns, hne, h => by
    rw [scanEntries_nil] at h
    simp only [Except.ok.injEq] at h
    subst h
    simp [descListNames]
  | e :: rest, p, md, c, pats, ns, hne, h => by
    simp only [entryListNamesNonEmpty, Bool.and_eq_true, Bool.not_eq_true'] at hne
    obtain ⟨⟨hne1, hne2⟩, hne3⟩ := hne
    rw [scanEntries_cons] at h
    by_cases hig : isIgnored pats (fsName e) = true
    · rw [if_pos hig] at h
      exact scanEntries_descNames rest p md c pats ns hne3 h
    · rw [if_neg hig] at h
      have higf : isIgnored pats (fsName e) = false := by
        exact Bool.not_eq_true _ ▸ (by simpa using hig)
      cases e with
      | file fn ct =>
        cases hs : scanEntries rest p md c pats with
        | error er => simp [hs] at h
        | ok tail =>
          simp only [hs, Except.ok.injEq] at h
          subst h
          intro nm hm
          simp only [descListNames, nodeName, strictDescNames, List.nil_append,
            List.mem_cons] at hm
          rcases hm with rfl | hm
          · exact higf
          · exact scanEntries_descNames rest p md c pats tail hne3 hs nm hm
      | dir fn lb cs =>
        cases hsub : getDirectoryStructure (FsTree.dir fn lb cs) (p ++ [fn]) md (c + 1) pats with
        | error er => simp [hsub] at h
        | ok o =>
          cases o with
          | none =>
            simp only [hsub] at h
            exact scanEntries_descNames rest p md c pats ns hne3 h
          | some nd =>
            simp only [hsub] at h
            cases hs : scanEntries rest p md c pats with
            | error er => simp [hs] at h
            | ok tail =>
              simp only [hs, Except.ok.injEq] at h
              subst h
              intro nm hm
              simp only [descListNames, List.mem_cons, List.mem_append] at hm
              rcases hm with rfl | hm | hm
              · have hnm := scan_ok_name _ _ _ _ _ _ hsub
                rw [scanDirName_snoc p fn (by simpa [fsName] using hne1)] at hnm
                rw [hnm]
                simpa [fsName] using higf
              · exact scan_descNames (FsTree.dir fn lb cs) (p ++ [fn]) md (c + 1) pats nd
                  (by simpa [entryNamesNonEmpty] using hne2) hsub nm hm
              · exact scanEntries_descNames rest p md c pats tail hne3 hs nm hm

end

/-- C3: entries whose name contains an ignore pattern are skipped
entirely — scanning a tree equals scanning the tree with every ignored
entry's whole subtree removed (ignored subtrees are never visited and
contribute nothing), and every node that does appear below the root of
a successful scan bears a name matching no ignore pattern. -/
theorem scan_ignores_matching_entries (t : FsTree) (p : List Str) (md c : Nat)
    (pats : List Str) :
    getDirectoryStructure (pruneFs pats t) p md c pats =
      getDirectoryStructure t p md c pats ∧
    (entryNamesNonEmpty t = true →
      ∀ n, getDirectoryStructure t p md c pats = Except.ok (some n) →
        ∀ nm ∈ strictDescNames n, isIgnored pats nm = false) :=
  ⟨scan_prune t p md c pats,
   fun hne n h => scan_descNames t p md c pats n hne h⟩

/-- Witness for C3 at a concrete scan with an ignored entry. -/
theorem scan_ignores_matching_entries_witness :
    getDirectoryStructure (pruneFs defaultIgnorePatterns exFs) [("root".toList)]
        3 0 defaultIgnorePatterns =
      getDirectoryStructure exFs [("root".toList)] 3 0 defaultIgnorePatterns ∧
    isIgnored defaultIgnorePatterns ("sub".toList) = false :=
  ⟨(scan_ignores_matching_entries exFs [("root".toList)] 3 0 defaultIgnorePatterns).1,
   (scan_ignores_matching_entries exFs [("root".toList)] 3 0 defaultIgnorePatterns).2
     (by decide) exFsScan rfl ("sub".toList) (by decide)⟩

/-- A default-depth scan can only succeed on a listable directory. -/
theorem scanAt_ok_shape (t : Option FsTree) (p : List Str) (o : Option Node)
    (h : getDirectoryStructureAt t p 3 0 defaultIgnorePatterns = Except.ok o) :
    ∃ fn es, t = some (FsTree.dir fn true es) := by
  cases t with
  | none => simp [getDirectoryStructureAt] at h
  | some tr =>
    cases tr with
    | file fn ct => simp [getDirectoryStructureAt, scan_file_eq] at h
    | dir fn lb es =>
      cases lb with
      | false => simp [getDirectoryStructureAt, scan_dir_eq] at h
      | true => exact ⟨fn, es, rfl⟩

/-- C5: `analyzeProject` fails exactly when the default-depth directory
scan of the project path fails, and a missing or unparseable manifest
never fails the analysis — every manifest-derived field is then left
unset (the name falls back to the path base and the lists are empty). -/
theorem analyze_fails_iff_scan_fails (t : Option FsTree) (p : List Str)
    (parseJson : Str → Option PackageJson) :
    isOkE (analyzeProject t p parseJson) =
      isOkE (getDirectoryStructureAt t p 3 0 defaultIgnorePatterns) ∧
    (packageJsonOf t parseJson = none →
      ∀ a, analyzeProject t p parseJson = Except.ok a →
        a.projectData.projectName = baseName p ∧
        a.projectData.description = none ∧
        a.projectData.version = none ∧
        a.projectData.author = none ∧
        a.projectData.license = none ∧
        a.projectData.homepage = none ∧
        a.projectData.repository = none ∧
        a.projectData.scripts = [] ∧
        a.projectData.dependencies = [] ∧
        a.projectData.devDependencies = []) := by
  cases hscan : getDirectoryStructureAt t p 3 0 defaultIgnorePatterns with
  | error e =>
    constructor
    · unfold analyzeProject
      rw [hscan]
      rfl
    · intro hpj a ha
      unfold analyzeProject at ha
      rw [hscan] at ha
      simp at ha
  | ok o =>
    obtain ⟨fn, es, ht⟩ := scanAt_ok_shape t p o hscan
    subst ht
    constructor
    · unfold analyzeProject
      rw [hscan]
      simp [readdirNames, isOkE]
    · intro hpj a ha
      unfold analyzeProject at ha
      rw [hscan] at ha
      simp only [readdirNames, Except.ok.injEq] at ha
      rw [hpj] at ha
      subst ha
      simp [jsOrStr, jsTruthy, jsTruthySum, Option.bind]

/-- Witness for C5 at a concrete project without a manifest. -/
theorem analyze_fails_iff_scan_fails_witness :
    isOkE (analyzeProject (some exFs) [("root".toList)] (fun _ => none)) =
      isOkE (getDirectoryStructureAt (some exFs) [("root".toList)] 3 0 defaultIgnorePatterns) ∧
    (analyzeProject (some exFs) [("root".toList)] (fun _ => none)).toOption.map
        (fun a => a.projectData.description) = some none := by
  refine ⟨(analyze_fails_iff_scan_fails (some exFs) [("root".toList)] (fun _ => none)).1, ?_⟩
  cases ha : analyzeProject (some exFs) [("root".toList)] (fun _ => none) with
  | error e =>
    have h1 := (analyze_fails_iff_scan_fails (some exFs) [("root".toList)] (fun _ => none)).1
    rw [ha] at h1
    have h2 : isOkE (getDirectoryStructureAt (some exFs) [("root".toList)] 3 0
        defaultIgnorePatterns) = true := by decide
    rw [h2] at h1
    simp [isOkE] at h1
  | ok a =>
    have hd := ((analyze_fails_iff_scan_fails (some exFs) [("root".toList)]
      (fun _ => none)).2 rfl a ha).2.1
    simp [Except.toOption, hd]

/-- C10: the `rootFiles` field of a successful analysis is the raw
non-recursive listing of the project root, with no ignore-pattern
filtering applied. -/
theorem rootFiles_unfiltered (t : Option FsTree) (p : List Str)
    (parseJson : Str → Option PackageJson) (a : AnalysisResult)
    (h : analyzeProject t p parseJson = Except.ok a) :
    readdirNames t = Except.ok a.projectData.rootFiles := by
  unfold analyzeProject at h
  cases hscan : getDirectoryStructureAt t p 3 0 defaultIgnorePatterns with
  | error e => rw [hscan] at h; simp at h
  | ok o =>
    rw [hscan] at h
    cases hrd : readdirNames t with
    | error e => simp [hrd] at h
    | ok files =>
      simp only [hrd, Except.ok.injEq] at h
      subst h
      rfl

/-- Witness for C10: the ignored entry `node_modules` appears in
`rootFiles` even though the scan excluded it from the tree. -/
theorem rootFiles_unfiltered_witness :
    (analyzeProject (some exFs) [("root".toList)] (fun _ => none)).toOption.map
        (fun a => a.projectData.rootFiles) =
      some [("a".toList), ("node_modules".toList), ("sub".toList)] ∧
    isIgnored defaultIgnorePatterns ("node_modules".toList) = true := by
  constructor
  · cases ha : analyzeProject (some exFs) [("root".toList)] (fun _ => none) with
    | error e =>
      have h1 : isOkE (analyzeProject (some exFs) [("root".toList)] (fun _ => none)) =
          true := by decide
      rw [ha] at h1
      simp [isOkE] at h1
    | ok a =>
      have h := rootFiles_unfiltered (some exFs) [("root".toList)] (fun _ => none) a ha
      have h2 : readdirNames (some exFs) =
          Except.ok [("a".toList), ("node_modules".toList), ("sub".toList)] := rfl
      rw [h2] at h
      simp only [Except.ok.injEq] at h
      simp [Except.toOption, ← h]
  · decide

/-- Appending a singleton block keeps a list a sublist of the candidate
list extended by the block's element. -/
theorem ifSingleton_sublist {α : Type} (c : Prop) [Decidable c] (x : α)
    {l1 l2 : List α} (h : List.Sublist l1 l2) :
    List.Sublist ((if c then [x] else []) ++ l1) (x :: l2) := by
  by_cases hc : c
  · rw [if_pos hc]
    exact List.Sublist.cons₂ x h
  · rw [if_neg hc]
    simp only [List.nil_append]
    exact List.Sublist.cons x h

/-- Eight optional singleton blocks concatenate to a sublist of their
eight candidates. -/
theorem blocks_sublist {α : Type} (c1 c2 c3 c4 c5 c6 c7 c8 : Prop)
    [Decidable c1] [Decidable c2] [Decidable c3] [Decidable c4]
    [Decidable c5] [Decidable c6] [Decidable c7] [Decidable c8]
    (x1 x2 x3 x4 x5 x6 x7 x8 : α) :
    List.Sublist
      ((if c1 then [x1] else []) ++ (if c2 then [x2] else []) ++
       (if c3 then [x3] else []) ++ (if c4 then [x4] else []) ++
       (if c5 then [x5] else []) ++ (if c6 then [x6] else []) ++
       (if c7 then [x7] else []) ++ (if c8 then [x8] else []))
      [x1, x2, x3, x4, x5, x6, x7, x8] := by
  simp only [List.append_assoc]
  refine ifSingleton_sublist c1 x1 ?_
  refine ifSingleton_sublist c2 x2 ?_
  refine ifSingleton_sublist c3 x3 ?_
  refine ifSingleton_sublist c4 x4 ?_
  refine ifSingleton_sublist c5 x5 ?_
  refine ifSingleton_sublist c6 x6 ?_
  refine ifSingleton_sublist c7 x7 ?_
  by_cases hc : c8
  · rw [if_pos hc]
  · rw [if_neg hc]
    exact List.nil_sublist _

/-- Unless both Python markers are present, the detected-technology
list has no duplicates. -/
theorem detect_nodup (files : List Str)
    (h : ¬(files.contains ("requirements.txt".toList) = true ∧
           files.contains ("setup.py".toList) = true)) :
    (detectedTechnologiesOf files).Nodup := by
  by_cases hreq : files.contains ("requirements.txt".toList) = true
  · have hsetup : ¬ files.contains ("setup.py".toList) = true := fun hs => h ⟨hreq, hs⟩
    have hsub : List.Sublist (detectedTechnologiesOf files)
        [("Node.js".toList), ("TypeScript".toList), ("Python".toList),
         ("Rust".toList), ("Go".toList), ("Java".toList),
         ("Java/Gradle".toList), ("Docker".toList)] := by
      unfold detectedTechnologiesOf
      rw [if_neg hsetup]
      simp only [List.append_nil, List.nil_append]
      exact blocks_sublist _ _ _ _ _ _ _ _ _ _ _ _ _ _ _ _
    exact hsub.nodup (by decide)
  · have hsub : List.Sublist (detectedTechnologiesOf files)
        [("Node.js".toList), ("TypeScript".toList), ("Python".toList),
         ("Rust".toList), ("Go".toList), ("Java".toList),
         ("Java/Gradle".toList), ("Docker".toList)] := by
      unfold detectedTechnologiesOf
      rw [if_neg hreq]
      simp only [List.append_nil, List.nil_append]
      exact blocks_sublist _ _ _ _ _ _ _ _ _ _ _ _ _ _ _ _
    exact hsub.nodup (by decide)

/-- An optional singleton block is empty exactly when its condition
fails. -/
theorem if_singleton_eq_nil {α : Type} (c : Prop) [Decidable c] (x : α) :
    ((if c then [x] else []) = []) ↔ ¬c := by
  by_cases hc : c <;> simp [hc]

/-- When detection is empty, adding one marker detects exactly its
label. -/
theorem detect_monotone (files : List Str) (mk lb : Str)
    (hempty : detectedTechnologiesOf files = [])
    (hm : (mk, lb) ∈ markerTable) :
    detectedTechnologiesOf (files ++ [mk]) = [lb] := by
  rw [detectedTechnologiesOf] at hempty
  simp only [List.append_eq_nil, if_singleton_eq_nil] at hempty
  obtain ⟨⟨⟨⟨⟨⟨⟨⟨h1, h2⟩, h3⟩, h4⟩, h5⟩, h6⟩, h7⟩, h8⟩, h9⟩ := hempty
  simp at h1 h2 h3 h4 h5 h6 h7 h8 h9
  simp only [markerTable, List.mem_cons, List.mem_singleton, Prod.mk.injEq,
    List.not_mem_nil, or_false] at hm
  rcases hm with hm | hm | hm | hm | hm | hm | hm | hm | hm <;>
    obtain ⟨rfl, rfl⟩ := hm <;>
    simp [detectedTechnologiesOf, h1, h2, h3, h4, h5, h6, h7, h8, h9]

/-- A successful analysis detects exactly from its own root listing. -/
theorem analyze_detect_eq (t : Option FsTree) (p : List Str)
    (parseJson : Str → Option PackageJson) (a : AnalysisResult)
    (h : analyzeProject t p parseJson = Except.ok a) :
    a.projectData.detectedTechnologies =
      detectedTechnologiesOf a.projectData.rootFiles := by
  unfold analyzeProject at h
  cases hscan : getDirectoryStructureAt t p 3 0 defaultIgnorePatterns with
  | error e => rw [hscan] at h; simp at h
  | ok o =>
    rw [hscan] at h
    cases hrd : readdirNames t with
    | error e => simp [hrd] at h
    | ok files =>
      simp only [hrd, Except.ok.injEq] at h
      subst h
      rfl

/-- C2 (amended): the detected-technology list of an analysis is
computed from its root listing; it has no duplicate labels unless both
Python markers (`requirements.txt` and `setup.py`) are present — the
one duplication the table allows; and detection is monotonic: adding a
single marker file to a listing that detects nothing adds exactly that
marker's mapped label. -/
theorem detect_nodup_and_monotone (files : List Str) :
    (¬(files.contains ("requirements.txt".toList) = true ∧
       files.contains ("setup.py".toList) = true) →
      (detectedTechnologiesOf files).Nodup) ∧
    (detectedTechnologiesOf files = [] →
      ∀ mk lb, (mk, lb) ∈ markerTable →
        detectedTechnologiesOf (files ++ [mk]) = [lb]) ∧
    (∀ (t : Option FsTree) (p : List Str) (parseJson : Str → Option PackageJson)
      (a : AnalysisResult), analyzeProject t p parseJson = Except.ok a →
      a.projectData.detectedTechnologies =
        detectedTechnologiesOf a.projectData.rootFiles) :=
  ⟨detect_nodup files,
   fun hempty mk lb hm => detect_monotone files mk lb hempty hm,
   fun t p parseJson a h => analyze_detect_eq t p parseJson a h⟩

/-- A root listing with both Python markers. -/
def fsPython : FsTree :=
  FsTree.dir ("app".toList) true
    [FsTree.file ("requirements.txt".toList) (some []),
     FsTree.file ("setup.py".toList) (some [])]

/-- C2 counterexample: with both `requirements.txt` and `setup.py`
present, `analyzeProject` reports `Python` twice — a duplicate label. -/
theorem detect_duplicate_cex :
    (analyzeProject (some fsPython) [("app".toList)] (fun _ => none)).toOption.map
        (fun a => a.projectData.detectedTechnologies) =
      some [("Python".toList), ("Python".toList)] ∧
    ¬ ([("Python".toList), ("Python".toList)] : List Str).Nodup := by
  constructor
  · rfl
  · decide

/-- Witness for C2 at concrete listings. -/
theorem detect_nodup_and_monotone_witness :
    (detectedTechnologiesOf [("tsconfig.json".toList)]).Nodup ∧
    detectedTechnologiesOf ([] ++ [("Cargo.toml".toList)]) = [("Rust".toList)] :=
  ⟨(detect_nodup_and_monotone [("tsconfig.json".toList)]).1 (by decide),
   (detect_nodup_and_monotone []).2.1 rfl ("Cargo.toml".toList) ("Rust".toList)
     (by decide)⟩

/-- A string starts with its own prefix. -/
theorem leadsWith_append (p s : Str) : leadsWith p (p ++ s) = true := by
  induction p with
  | nil => rfl
  | cons c cs ih => simp [leadsWith, ih]

/-- C4: for each of the four operations, when the underlying operation
fails the dispatch handler still returns an ordinary response — with
the error flag set and a text payload beginning with `Error: ` — rather
than raising the failure through the transport. -/
theorem dispatch_reports_errors (root : FsTree)
    (parseJson : Str → Option PackageJson) (sS : Option Node → Str)
    (sA : AnalysisResult → Str) (path : List Str) (md : Nat) :
    (isOkE (getDirectoryStructureAt (resolve (some root) path) path md 0
        defaultIgnorePatterns) = false →
      (handleToolCall root parseJson sS sA
        (ToolCall.readProjectStructure path md)).isError = true ∧
      leadsWith ("Error: ".toList)
        (handleToolCall root parseJson sS sA
          (ToolCall.readProjectStructure path md)).text = true) ∧
    (isOkE (readFileFs (resolve (some root) path)) = false →
      (handleToolCall root parseJson sS sA (ToolCall.readFileTool path)).isError = true ∧
      leadsWith ("Error: ".toList)
        (handleToolCall root parseJson sS sA (ToolCall.readFileTool path)).text = true) ∧
    (isOkE (analyzeProject (resolve (some root) path) path parseJson) = false →
      (handleToolCall root parseJson sS sA (ToolCall.analyzeProjectTool path)).isError = true ∧
      leadsWith ("Error: ".toList)
        (handleToolCall root parseJson sS sA (ToolCall.analyzeProjectTool path)).text = true) ∧
    (isOkE (analyzeProject (resolve (some root) path) path parseJson) = false →
      (handleToolCall root parseJson sS sA (ToolCall.generateReadmeTool path)).isError = true ∧
      leadsWith ("Error: ".toList)
        (handleToolCall root parseJson sS sA (ToolCall.generateReadmeTool path)).text = true) := by
  refine ⟨?_, ?_, ?_, ?_⟩
  · intro h
    cases hs : getDirectoryStructureAt (resolve (some root) path) path md 0
        defaultIgnorePatterns with
    | ok o => rw [hs] at h; simp [isOkE] at h
    | error e =>
      simp [handleToolCall, hs, errorResponse, leadsWith]
  · intro h
    cases hs : readFileFs (resolve (some root) path) with
    | ok o => rw [hs] at h; simp [isOkE] at h
    | error e =>
      simp [handleToolCall, hs, errorResponse, leadsWith]
  · intro h
    cases hs : analyzeProject (resolve (some root) path) path parseJson with
    | ok o => rw [hs] at h; simp [isOkE] at h
    | error e =>
      simp [handleToolCall, hs, errorResponse, leadsWith]
  · intro h
    cases hs : analyzeProject (resolve (some root) path) path parseJson with
    | ok o => rw [hs] at h; simp [isOkE] at h
    | error e =>
      simp [handleToolCall, hs, errorResponse, leadsWith]

/-- An unlistable root directory: every operation on it fails. -/
def exBadRoot : FsTree := FsTree.dir ("r".toList) false []

/-- Witness for C4: on an unlistable root all four operations fail and
each response is error-flagged with an `Error: ` text. -/
theorem dispatch_reports_errors_witness :
    ((handleToolCall exBadRoot (fun _ => none) (fun _ => []) (fun _ => [])
        (ToolCall.readProjectStructure [] 3)).isError = true ∧
      leadsWith ("Error: ".toList)
        (handleToolCall exBadRoot (fun _ => none) (fun _ => []) (fun _ => [])
          (ToolCall.readProjectStructure [] 3)).text = true) ∧
    ((handleToolCall exBadRoot (fun _ => none) (fun _ => []) (fun _ => [])
        (ToolCall.readFileTool [])).isError = true ∧
      leadsWith ("Error: ".toList)
        (handleToolCall exBadRoot (fun _ => none) (fun _ => []) (fun _ => [])
          (ToolCall.readFileTool [])).text = true) ∧
    ((handleToolCall exBadRoot (fun _ => none) (fun _ => []) (fun _ => [])
        (ToolCall.analyzeProjectTool [])).isError = true ∧
      leadsWith ("Error: ".toList)
        (handleToolCall exBadRoot (fun _ => none) (fun _ => []) (fun _ => [])
          (ToolCall.analyzeProjectTool [])).text = true) ∧
    ((handleToolCall exBadRoot (fun _ => none) (fun _ => []) (fun _ => [])
        (ToolCall.generateReadmeTool [])).isError = true ∧
      leadsWith ("Error: ".toList)
        (handleToolCall exBadRoot (fun _ => none) (fun _ => []) (fun _ => [])
          (ToolCall.generateReadmeTool [])).text = true) :=
  ⟨(dispatch_reports_errors exBadRoot (fun _ => none) (fun _ => []) (fun _ => [])
      [] 3).1 (by decide),
   (dispatch_reports_errors exBadRoot (fun _ => none) (fun _ => []) (fun _ => [])
      [] 3).2.1 (by decide),
   (dispatch_reports_errors exBadRoot (fun _ => none) (fun _ => []) (fun _ => [])
      [] 3).2.2.1 (by decide),
   (dispatch_reports_errors exBadRoot (fun _ => none) (fun _ => []) (fun _ => [])
      [] 3).2.2.2 (by decide)⟩

end ReadmeGen
